/-
  Verification of the nvim-oxi marshaling core against its specification.

  Shallow embedding of:
  - `nvim-types/src/string.rs`  (the Byte-Buffer / Neovim `String`)
  - `nvim-types/src/object.rs`  (the Dynamic Value tagged union `Object`)
  - `nvim-types/src/array.rs`   (the Sequence `Array` and its iterator)
  - `nvim-oxi/src/lua/luafun.rs` (the closure re-entrancy guards)

  Bytes are modelled as `Nat` (values < 256 where the code guarantees it),
  64-bit integers as `Int` (no modeled path overflows), heap allocations as
  `List Nat`, and a possibly-null pointer as an `Option`.
-/
import Mathlib

namespace NvimOxi

/-! ## UTF-8 model

The Rust code delegates text validation to `std` (`str::from_utf8`,
`String::from_utf8`, `String::from_utf8_lossy`).  We model those functions
by the UTF-8 specification they implement: a strict decoder that accepts
exactly the well-formed encodings of Unicode scalar values, and a lossy
decoder that substitutes U+FFFD for each maximal invalid subpart, following
the substitution policy documented for `String::from_utf8_lossy`. -/

/-- A continuation byte: `0x80 ..= 0xBF`. -/
def contB (b : Nat) : Bool := 0x80 ≤ b && b ≤ 0xBF

/-- Allowed second byte of a three-byte sequence, given the lead byte.
`0xE0` restricts to `0xA0..=0xBF` (no overlong forms) and `0xED` to
`0x80..=0x9F` (no surrogates). -/
def cont3 (b1 b2 : Nat) : Bool :=
  if b1 == 0xE0 then 0xA0 ≤ b2 && b2 ≤ 0xBF
  else if b1 == 0xED then 0x80 ≤ b2 && b2 ≤ 0x9F
  else contB b2

/-- Allowed second byte of a four-byte sequence, given the lead byte.
`0xF0` restricts to `0x90..=0xBF` (no overlong forms) and `0xF4` to
`0x80..=0x8F` (codepoints ≤ U+10FFFF). -/
def cont4 (b1 b2 : Nat) : Bool :=
  if b1 == 0xF0 then 0x90 ≤ b2 && b2 ≤ 0xBF
  else if b1 == 0xF4 then 0x80 ≤ b2 && b2 ≤ 0x8F
  else contB b2

/-- Codepoint of a two-byte sequence. -/
def cp2 (b1 b2 : Nat) : Nat := (b1 - 0xC0) * 0x40 + (b2 - 0x80)

/-- Codepoint of a three-byte sequence. -/
def cp3 (b1 b2 b3 : Nat) : Nat :=
  (b1 - 0xE0) * 0x1000 + (b2 - 0x80) * 0x40 + (b3 - 0x80)

/-- Codepoint of a four-byte sequence. -/
def cp4 (b1 b2 b3 b4 : Nat) : Nat :=
  (b1 - 0xF0) * 0x40000 + (b2 - 0x80) * 0x1000 + (b3 - 0x80) * 0x40 + (b4 - 0x80)

/-- A Unicode scalar value: below `0x110000` and not a surrogate. -/
def Scalar (c : Nat) : Prop := c < 0x110000 ∧ ¬(0xD800 ≤ c ∧ c ≤ 0xDFFF)

instance (c : Nat) : Decidable (Scalar c) := by unfold Scalar; infer_instance

/-- The UTF-8 encoding of one scalar value. -/
def encodeChar (c : Nat) : List Nat :=
  if c < 0x80 then [c]
  else if c < 0x800 then [0xC0 + c / 0x40, 0x80 + c % 0x40]
  else if c < 0x10000 then
    [0xE0 + c / 0x1000, 0x80 + (c / 0x40) % 0x40, 0x80 + c % 0x40]
  else
    [0xF0 + c / 0x40000, 0x80 + (c / 0x1000) % 0x40, 0x80 + (c / 0x40) % 0x40,
      0x80 + c % 0x40]

/-- The UTF-8 encoding of a list of scalar values. -/
def encodeUtf8 (cs : List Nat) : List Nat := (cs.map encodeChar).flatten

/-- Strict UTF-8 decoding, as performed by `str::from_utf8` /
`String::from_utf8`: returns the decoded scalar values, or `none` if the
bytes are not well-formed UTF-8. -/
def utf8Decode : List Nat → Option (List Nat)
  | [] => some []
  | b1 :: t1 =>
    if b1 < 0x80 then (utf8Decode t1).map (fun cs => b1 :: cs)
    else if b1 < 0xC2 then none
    else if b1 ≤ 0xDF then
      match t1 with
      | b2 :: t2 =>
        if contB b2 then (utf8Decode t2).map (fun cs => cp2 b1 b2 :: cs)
        else none
      | [] => none
    else if b1 ≤ 0xEF then
      match t1 with
      | b2 :: t2 =>
        if cont3 b1 b2 then
          match t2 with
          | b3 :: t3 =>
            if contB b3 then (utf8Decode t3).map (fun cs => cp3 b1 b2 b3 :: cs)
            else none
          | [] => none
        else none
      | [] => none
    else if b1 ≤ 0xF4 then
      match t1 with
      | b2 :: t2 =>
        if cont4 b1 b2 then
          match t2 with
          | b3 :: t3 =>
            if contB b3 then
              match t3 with
              | b4 :: t4 =>
                if contB b4 then
                  (utf8Decode t4).map (fun cs => cp4 b1 b2 b3 b4 :: cs)
                else none
              | [] => none
            else none
          | [] => none
        else none
      | [] => none
    else none

/-- Lossy UTF-8 decoding, as performed by `String::from_utf8_lossy`:
each maximal valid prefix of an invalid sequence is replaced by a single
U+FFFD (`0xFFFD`) and decoding resumes at the next byte. -/
def utf8Lossy : List Nat → List Nat
  | [] => []
  | b1 :: t1 =>
    if b1 < 0x80 then b1 :: utf8Lossy t1
    else if b1 < 0xC2 then 0xFFFD :: utf8Lossy t1
    else if b1 ≤ 0xDF then
      match _h2 : t1 with
      | b2 :: t2 =>
        if contB b2 then cp2 b1 b2 :: utf8Lossy t2
        else 0xFFFD :: utf8Lossy t1
      | [] => [0xFFFD]
    else if b1 ≤ 0xEF then
      match _h2 : t1 with
      | b2 :: t2 =>
        if cont3 b1 b2 then
          match _h3 : t2 with
          | b3 :: t3 =>
            if contB b3 then cp3 b1 b2 b3 :: utf8Lossy t3
            else 0xFFFD :: utf8Lossy t2
          | [] => [0xFFFD]
        else 0xFFFD :: utf8Lossy t1
      | [] => [0xFFFD]
    else if b1 ≤ 0xF4 then
      match _h2 : t1 with
      | b2 :: t2 =>
        if cont4 b1 b2 then
          match _h3 : t2 with
          | b3 :: t3 =>
            if contB b3 then
              match _h4 : t3 with
              | b4 :: t4 =>
                if contB b4 then cp4 b1 b2 b3 b4 :: utf8Lossy t4
                else 0xFFFD :: utf8Lossy t3
              | [] => [0xFFFD]
            else 0xFFFD :: utf8Lossy t2
          | [] => [0xFFFD]
        else 0xFFFD :: utf8Lossy t1
      | [] => [0xFFFD]
    else 0xFFFD :: utf8Lossy t1
termination_by l => l.length
decreasing_by all_goals (subst_vars; simp; try omega)

/-- A byte list is valid UTF-8 iff it is the encoding of some list of
Unicode scalar values. -/
def Utf8Valid (v : List Nat) : Prop :=
  ∃ cs : List Nat, (∀ c ∈ cs, Scalar c) ∧ encodeUtf8 cs = v

/-! ## Byte-Buffer: `nvim_types::String` (`string.rs`)

```rust
pub struct String { pub data: *mut c_char, pub size: size_t }
```
`data` is a possibly-null pointer to a heap allocation; we model the
allocation contents as a `List Nat` and nullness as `Option`. -/

structure NvimString where
  /-- The bytes of the backing allocation (`none` models a null `data`). -/
  data : Option (List Nat)
  /-- `size`: recorded length, excluding the trailing terminator. -/
  size : Nat

namespace NvimString

/-- ```rust
pub fn from_bytes(mut vec: Vec<u8>) -> Self {
    vec.reserve_exact(1);
    vec.push(0);
    let size = vec.len() - 1;
    let data = vec.leak().as_mut_ptr() as *mut c_char;
    Self { data, size }
}
``` -/
def from_bytes (v : List Nat) : NvimString :=
  { data := some (v ++ [0]), size := v.length }

/-- `pub const fn len(&self) -> usize { self.size }` -/
def len (s : NvimString) : Nat := s.size

/-- `pub const fn is_empty(&self) -> bool { self.len() == 0 }` -/
def is_empty (s : NvimString) : Bool := s.len == 0

/-- ```rust
pub fn as_bytes(&self) -> &[u8] {
    if self.data.is_null() { &[] }
    else { unsafe { slice::from_raw_parts(self.data as *const u8, self.size) } }
}
``` -/
def as_bytes (s : NvimString) : List Nat :=
  match s.data with
  | none => []
  | some a => a.take s.size

/-- ```rust
pub fn into_bytes(self) -> Vec<u8> {
    if self.data.is_null() { Vec::new() }
    else { unsafe { ... Vec::from_raw_parts(mdrop.data as *mut u8, mdrop.size, mdrop.size) } }
}
``` -/
def into_bytes (s : NvimString) : List Nat :=
  match s.data with
  | none => []
  | some a => a.take s.size

/-- `pub fn as_str(&self) -> Result<&str, str::Utf8Error>` — strict text
view via `str::from_utf8(self.as_bytes())`; we return the decoded scalar
values, `none` modelling the `Utf8Error`. -/
def as_str (s : NvimString) : Option (List Nat) :=
  utf8Decode s.as_bytes

/-- `pub fn to_string_lossy(&self) -> Cow<str>` via
`String::from_utf8_lossy(self.as_bytes())`. Total: never fails. -/
def to_string_lossy (s : NvimString) : List Nat :=
  utf8Lossy s.as_bytes

/-- `pub fn into_string(self) -> Result<StdString, FromUtf8Error>` via
`StdString::from_utf8(self.into_bytes())`. -/
def into_string (s : NvimString) : Option (List Nat) :=
  utf8Decode s.into_bytes

/-- `impl Default for String`: `Self { data: ptr::null_mut(), size: 0 }`. -/
def default : NvimString := { data := none, size := 0 }

/-- `impl Clone for String`: `Self::from_bytes(self.as_bytes().to_owned())`. -/
def clone (s : NvimString) : NvimString := from_bytes s.as_bytes

/-- `impl Drop for String` reconstructs
`Vec::from_raw_parts(self.data, self.size + 1, self.size + 1)` and lets it
free the allocation; we return the byte block that is released. -/
def dropFrees (s : NvimString) : Option (List Nat) :=
  s.data.map (fun a => a.take (s.size + 1))

/-- `impl PartialEq for String`: `self.as_bytes() == other.as_bytes()`. -/
def beq (a b : NvimString) : Bool := a.as_bytes == b.as_bytes

end NvimString

/-! ## Dynamic Value: `nvim_types::Object` (`object.rs`)

```rust
pub struct Object { pub r#type: ObjectType, pub data: ObjectData }
pub union ObjectData { boolean, integer, float, string, array, dictionary, luaref }
```
`Boolean = bool`, `Integer = i64`, `Float = f64`, `LuaRef = c_int`.
We model the tagged union as an inductive: the tag picks the constructor.
The `f64` payload is opaque to every modeled code path (it is only moved
and compared), so we carry its 64-bit pattern as an `Int`. -/

/-- `ObjectType`, the tag enumeration (source constructor names kept). -/
inductive ObjectType where
  | kObjectTypeNil
  | kObjectTypeBoolean
  | kObjectTypeInteger
  | kObjectTypeFloat
  | kObjectTypeString
  | kObjectTypeArray
  | kObjectTypeDictionary
  | kObjectTypeLuaRef
deriving DecidableEq, Repr

/-- The tagged union: tag + the payload valid for that tag.  `dictionary`
is the Ordered-Mapping: a list of (`NvimString` key, value) pairs. -/
inductive Object where
  | nil
  | boolean (b : Bool)
  | integer (i : Int)
  | float (bits : Int)
  | string (s : NvimString)
  | array (a : List Object)
  | dictionary (d : List (NvimString × Object))
  | luaref (r : Int)

namespace Object

/-- `obj.r#type`: the tag of a value. -/
def tag : Object → ObjectType
  | .nil => .kObjectTypeNil
  | .boolean _ => .kObjectTypeBoolean
  | .integer _ => .kObjectTypeInteger
  | .float _ => .kObjectTypeFloat
  | .string _ => .kObjectTypeString
  | .array _ => .kObjectTypeArray
  | .dictionary _ => .kObjectTypeDictionary
  | .luaref _ => .kObjectTypeLuaRef

/-- `pub const fn is_nil(&self) -> bool` -/
def is_nil (o : Object) : Bool := o.tag = .kObjectTypeNil

/-- `pub const fn is_some(&self) -> bool { !self.is_nil() }` -/
def is_some (o : Object) : Bool := !o.is_nil

/-- Reading the one-byte `boolean` field of the C union when an eight-byte
`integer` payload is stored: on the little-endian C layout this reads the
least-significant byte of the i64's two's-complement representation. -/
def lowByte (i : Int) : Nat := (i % 256).toNat

end Object

mutual

/-- `PartialEq for Object` (object.rs:209-232): compares the tags first,
then the payloads.  The `kObjectTypeInteger` arm of the source reads
`lhs.boolean == rhs.boolean` — the one-byte `boolean` union field — rather
than the full `integer` payload; `lowByte` models that read.
`Collection`'s element-wise equality (used by the `array`/`dictionary`
arms) is not under `src/`; those two arms are modelled from the spec:
"structural for sequences/mappings". -/
def objectEqCode : Object → Object → Bool
  | .nil, .nil => true
  | .boolean a, .boolean b => a == b
  | .integer a, .integer b => Object.lowByte a == Object.lowByte b
  | .float a, .float b => a == b
  | .string a, .string b => a.beq b
  | .array a, .array b => arrayEqCode a b
  | .dictionary a, .dictionary b => dictEqCode a b
  | .luaref a, .luaref b => a == b
  | _, _ => false

/-- Modelled from the spec: element-wise `PartialEq` of `Collection<Object>`
(the `Collection` type itself is not under `src/`). -/
def arrayEqCode : List Object → List Object → Bool
  | [], [] => true
  | x :: xs, y :: ys => objectEqCode x y && arrayEqCode xs ys
  | _, _ => false

/-- Modelled from the spec: element-wise `PartialEq` of the dictionary's
key/value pairs (the `KeyValuePair` type is not under `src/`). -/
def dictEqCode : List (NvimString × Object) → List (NvimString × Object) → Bool
  | [], [] => true
  | (k1, v1) :: xs, (k2, v2) :: ys =>
    k1.beq k2 && objectEqCode v1 v2 && dictEqCode xs ys
  | _, _ => false

end

/-- `FromObjectError` (object.rs:377-393).  The `source: Box<dyn Error>`
payload of `Secondary` does not take part in its `PartialEq`, so it is
omitted. -/
inductive FromObjectError where
  | Primitive (expected actual : ObjectType)
  | Secondary (primitive : ObjectType) (into : String)
deriving DecidableEq, Repr

namespace Object

/-- `From<()> for Object`: `Self::nil()`. -/
def fromUnit (_ : Unit) : Object := .nil

/-- `from_copy!(Boolean, kObjectTypeBoolean, boolean)`. -/
def fromBoolean (b : Bool) : Object := .boolean b

/-- `from_copy!(Integer, kObjectTypeInteger, integer)`. -/
def fromInteger (i : Int) : Object := .integer i

/-- `from_copy!(Float, kObjectTypeFloat, float)`. -/
def fromFloat (bits : Int) : Object := .float bits

/-- `from_man_drop!(NvimString, kObjectTypeString, string)`. -/
def fromNvimString (s : NvimString) : Object := .string s

/-- `from_man_drop!(Array, kObjectTypeArray, array)`. -/
def fromArray (a : List Object) : Object := .array a

/-- `from_man_drop!(Dictionary, kObjectTypeDictionary, dictionary)`. -/
def fromDictionary (d : List (NvimString × Object)) : Object := .dictionary d

/-- `From<StdString> for Object`: `NvimString::from(s).into()`, i.e.
`NvimString::from_bytes(s.into_bytes())` wrapped with the string tag.
A Rust `String` is its UTF-8 byte vector. -/
def fromStdString (v : List Nat) : Object :=
  .string (NvimString.from_bytes v)

/-- `from_int!` (i8/u8/i16/u16/i32/u32): `Integer::from(i).into()` —
a lossless widening into the i64 payload. -/
def fromNarrowInt (i : Int) : Object := .integer i

/-- `From<Option<T>> for Object`: `maybe.map(Into::into).unwrap_or_default()`
— `None` becomes the nil Object. -/
def fromOption {α : Type} (f : α → Object) : Option α → Object
  | Option.none => .nil
  | Option.some x => f x

/-- `TryFrom<Object> for ()` (object.rs:432-440). -/
def tryFromUnit : Object → Except FromObjectError Unit
  | .nil => .ok ()
  | o => .error (.Primitive .kObjectTypeNil o.tag)

/-- `try_from_copy!(Boolean, kObjectTypeBoolean, boolean)`. -/
def tryFromBoolean : Object → Except FromObjectError Bool
  | .boolean b => .ok b
  | o => .error (.Primitive .kObjectTypeBoolean o.tag)

/-- `try_from_copy!(Integer, kObjectTypeInteger, integer)`. -/
def tryFromInteger : Object → Except FromObjectError Int
  | .integer i => .ok i
  | o => .error (.Primitive .kObjectTypeInteger o.tag)

/-- `try_from_copy!(Float, kObjectTypeFloat, float)`. -/
def tryFromFloat : Object → Except FromObjectError Int
  | .float f => .ok f
  | o => .error (.Primitive .kObjectTypeFloat o.tag)

/-- `try_from_man_drop!(NvimString, kObjectTypeString, into_string_unchecked)`. -/
def tryFromNvimString : Object → Except FromObjectError NvimString
  | .string s => .ok s
  | o => .error (.Primitive .kObjectTypeString o.tag)

/-- `try_from_man_drop!(Array, kObjectTypeArray, into_array_unchecked)`. -/
def tryFromArray : Object → Except FromObjectError (List Object)
  | .array a => .ok a
  | o => .error (.Primitive .kObjectTypeArray o.tag)

/-- `try_from_man_drop!(Dictionary, kObjectTypeDictionary, into_dict_unchecked)`. -/
def tryFromDictionary : Object → Except FromObjectError (List (NvimString × Object))
  | .dictionary d => .ok d
  | o => .error (.Primitive .kObjectTypeDictionary o.tag)

/-- `try_from_prim!(Integer, $ty, kObjectTypeInteger)` for a bounded
integer type with range `[lo, hi]`: extract the i64 payload, then the
secondary `$ty::try_from(i64)` range check. -/
def tryFromIntRange (lo hi : Int) (name : String) (o : Object) :
    Except FromObjectError Int :=
  match tryFromInteger o with
  | .ok i =>
    if lo ≤ i ∧ i ≤ hi then .ok i
    else .error (.Secondary .kObjectTypeInteger name)
  | .error e => .error e

/-- `try_from_prim!(Integer, i8, kObjectTypeInteger)`. -/
def tryFromI8 : Object → Except FromObjectError Int :=
  tryFromIntRange (-128) 127 "i8"

/-- `try_from_prim!(Integer, u8, kObjectTypeInteger)`. -/
def tryFromU8 : Object → Except FromObjectError Int :=
  tryFromIntRange 0 255 "u8"

/-- `try_from_prim!(Integer, i16, kObjectTypeInteger)`. -/
def tryFromI16 : Object → Except FromObjectError Int :=
  tryFromIntRange (-32768) 32767 "i16"

/-- `try_from_prim!(Integer, u16, kObjectTypeInteger)`. -/
def tryFromU16 : Object → Except FromObjectError Int :=
  tryFromIntRange 0 65535 "u16"

/-- `try_from_prim!(Integer, i32, kObjectTypeInteger)`. -/
def tryFromI32 : Object → Except FromObjectError Int :=
  tryFromIntRange (-2147483648) 2147483647 "i32"

/-- `try_from_prim!(Integer, u32, kObjectTypeInteger)`. -/
def tryFromU32 : Object → Except FromObjectError Int :=
  tryFromIntRange 0 4294967295 "u32"

/-- `try_from_prim!(NvimString, StdString, kObjectTypeString)`:
`NvimString::try_from(obj)?` then `StdString::try_from(nvim_string)`, the
latter being `StdString::from_utf8(s.into_bytes())` — it returns the same
bytes when they are valid UTF-8 and fails otherwise. -/
def tryFromStdString (o : Object) : Except FromObjectError (List Nat) :=
  match tryFromNvimString o with
  | .ok s =>
    match utf8Decode s.into_bytes with
    | Option.some _ => .ok s.into_bytes
    | Option.none =>
      .error (.Secondary .kObjectTypeString "alloc::string::String")
  | .error e => .error e

end Object

/-! ## Sequence: `nvim_types::Array` (`array.rs`) -/

/-- `impl<T: Into<Object>> FromIterator<T> for Array`:
```rust
iter.into_iter().map(Into::into).filter(Object::is_some)
    .collect::<Vec<Object>>().into()
```
The input is taken after its `Into<Object>` conversion. -/
def arrayFromIter (l : List Object) : List Object :=
  l.filter Object.is_some

/-- `ArrayIterator { start, end }`: the window `[start, end)` of elements
not yet yielded, modelled as the list of those elements. -/
structure ArrayIterator where
  rem : List Object

/-- `impl IntoIterator for Array`: wraps the array in `ManuallyDrop` and
hands the full element range to the iterator. -/
def arrayIntoIter (a : List Object) : ArrayIterator := ⟨a⟩

/-- `Iterator::next`: if `start != end`, `ptr::read` the current element
(ownership moves to the caller) and advance `start`. -/
def iterNext : ArrayIterator → Option Object × ArrayIterator
  | ⟨[]⟩ => (Option.none, ⟨[]⟩)
  | ⟨x :: xs⟩ => (Option.some x, ⟨xs⟩)

/-- `k` successive calls to `next`: the yielded elements in order, and the
iterator state afterwards. -/
def iterNextK : Nat → ArrayIterator → List Object × ArrayIterator
  | 0, it => ([], it)
  | k + 1, it =>
    match iterNext it with
    | (Option.none, it') => ([], it')
    | (Option.some x, it') =>
      let r := iterNextK k it'
      (x :: r.1, r.2)

/-- `impl Drop for ArrayIterator`: `drop_in_place` every element from
`start` to `end`; returns the list of elements released. -/
def iterDropFrees (it : ArrayIterator) : List Object := it.rem

/-! ## Closure guards: `nvim_oxi::lua::LuaFun` (`luafun.rs`) -/

/-- The `crate::Error` variants reachable from `luafun.rs`. -/
inductive CrateError where
  | LuaFunMutRecursiveCallback
  | LuaFunOnceMoreThanOnce
  | LuaRuntimeError (msg : String)
  | LuaMemoryError (msg : String)

/-- The state captured by `LuaFun::from_fn_mut`: the `RefCell` holding the
`FnMut` closure (borrow flag + captured state), together with the closure
body as a state-transition function. -/
structure FnMutCell (σ A R : Type) where
  /-- `RefCell`'s borrow flag: `true` while an invocation is executing. -/
  borrowed : Bool
  /-- The closure's captured environment. -/
  state : σ
  /-- The `FnMut` body: old state and argument to new state and result. -/
  body : σ → A → σ × Except CrateError R

/-- One invocation of the wrapper installed by `from_fn_mut`:
```rust
fun.try_borrow_mut().map_err(|_| crate::Error::LuaFunMutRecursiveCallback)?(args)
```
A failed `try_borrow_mut` (re-entrant call) yields the recursive-callback
error without touching the captured state. -/
def invokeFnMut {σ A R : Type} (c : FnMutCell σ A R) (a : A) :
    Except CrateError R × FnMutCell σ A R :=
  if c.borrowed then (.error .LuaFunMutRecursiveCallback, c)
  else
    let r := c.body c.state a
    (r.2, { c with state := r.1 })

/-- The state captured by `LuaFun::from_fn_once`: the
`RefCell<Option<F>>` holding the `FnOnce` closure. -/
structure FnOnceCell (A R : Type) where
  /-- `RefCell`'s borrow flag. -/
  borrowed : Bool
  /-- `Some(closure)` until the first invocation takes it. -/
  fn : Option (A → Except CrateError R)

/-- One invocation of the wrapper installed by `from_fn_once`:
```rust
fun.try_borrow_mut().ok().and_then(|mut fun| fun.take())
   .ok_or_else(|| crate::Error::LuaFunOnceMoreThanOnce)?(args)
```
The closure is `take`n out of the `Option` before it runs, so a second
invocation finds `None` and fails without re-running it. -/
def invokeFnOnce {A R : Type} (c : FnOnceCell A R) (a : A) :
    Except CrateError R × FnOnceCell A R :=
  if c.borrowed then (.error .LuaFunOnceMoreThanOnce, c)
  else
    match c.fn with
    | Option.some f => (f a, { c with fn := Option.none })
    | Option.none => (.error .LuaFunOnceMoreThanOnce, c)

/-! ## Helper lemmas -/

/-! ### One-step unfolding of `utf8Decode` and `utf8Lossy` -/

theorem lossy_nil : utf8Lossy [] = [] := by
  rw [utf8Lossy.eq_def]

theorem dec_ascii {b1 : Nat} (h : b1 < 0x80) (t : List Nat) :
    utf8Decode (b1 :: t) = (utf8Decode t).map (fun cs => b1 :: cs) := by
  rw [utf8Decode.eq_def]
  simp only []
  rw [if_pos h]

theorem lossy_ascii {b1 : Nat} (h : b1 < 0x80) (t : List Nat) :
    utf8Lossy (b1 :: t) = b1 :: utf8Lossy t := by
  rw [utf8Lossy.eq_def]
  simp only []
  rw [if_pos h]

theorem dec_badlead {b1 : Nat} (h1 : 0x80 ≤ b1) (h2 : b1 < 0xC2) (t : List Nat) :
    utf8Decode (b1 :: t) = none := by
  rw [utf8Decode.eq_def]
  simp only []
  rw [if_neg (by omega), if_pos h2]

theorem lossy_badlead {b1 : Nat} (h1 : 0x80 ≤ b1) (h2 : b1 < 0xC2) (t : List Nat) :
    utf8Lossy (b1 :: t) = 0xFFFD :: utf8Lossy t := by
  rw [utf8Lossy.eq_def]
  simp only []
  rw [if_neg (by omega), if_pos h2]

theorem dec_hugelead {b1 : Nat} (h : 0xF4 < b1) (t : List Nat) :
    utf8Decode (b1 :: t) = none := by
  rw [utf8Decode.eq_def]
  simp only []
  rw [if_neg (by omega), if_neg (by omega), if_neg (by omega), if_neg (by omega),
    if_neg (by omega)]

theorem lossy_hugelead {b1 : Nat} (h : 0xF4 < b1) (t : List Nat) :
    utf8Lossy (b1 :: t) = 0xFFFD :: utf8Lossy t := by
  rw [utf8Lossy.eq_def]
  simp only []
  rw [if_neg (by omega), if_neg (by omega), if_neg (by omega), if_neg (by omega),
    if_neg (by omega)]

theorem dec2 {b1 b2 : Nat} (h1 : 0xC2 ≤ b1) (h2 : b1 ≤ 0xDF)
    (hc : contB b2 = true) (t : List Nat) :
    utf8Decode (b1 :: b2 :: t) = (utf8Decode t).map (fun cs => cp2 b1 b2 :: cs) := by
  rw [utf8Decode.eq_def]
  simp only []
  rw [if_neg (by omega), if_neg (by omega), if_pos h2]
  simp only [hc, if_true]

theorem lossy2 {b1 b2 : Nat} (h1 : 0xC2 ≤ b1) (h2 : b1 ≤ 0xDF)
    (hc : contB b2 = true) (t : List Nat) :
    utf8Lossy (b1 :: b2 :: t) = cp2 b1 b2 :: utf8Lossy t := by
  rw [utf8Lossy.eq_def]
  simp only []
  rw [if_neg (by omega), if_neg (by omega), if_pos h2]
  simp only [hc, if_true]

theorem dec2_bad {b1 b2 : Nat} (h1 : 0xC2 ≤ b1) (h2 : b1 ≤ 0xDF)
    (hc : contB b2 = false) (t : List Nat) :
    utf8Decode (b1 :: b2 :: t) = none := by
  rw [utf8Decode.eq_def]
  simp only []
  rw [if_neg (by omega), if_neg (by omega), if_pos h2]
  simp only [hc, Bool.false_eq_true, if_false]

theorem lossy2_bad {b1 b2 : Nat} (h1 : 0xC2 ≤ b1) (h2 : b1 ≤ 0xDF)
    (hc : contB b2 = false) (t : List Nat) :
    utf8Lossy (b1 :: b2 :: t) = 0xFFFD :: utf8Lossy (b2 :: t) := by
  rw [utf8Lossy.eq_def]
  simp only []
  rw [if_neg (by omega), if_neg (by omega), if_pos h2]
  simp only [hc, Bool.false_eq_true, if_false]

theorem dec2_short {b1 : Nat} (h1 : 0xC2 ≤ b1) (h2 : b1 ≤ 0xDF) :
    utf8Decode [b1] = none := by
  rw [utf8Decode.eq_def]
  simp only []
  rw [if_neg (by omega), if_neg (by omega), if_pos h2]

theorem lossy2_short {b1 : Nat} (h1 : 0xC2 ≤ b1) (h2 : b1 ≤ 0xDF) :
    utf8Lossy [b1] = [0xFFFD] := by
  rw [utf8Lossy.eq_def]
  simp only []
  rw [if_neg (by omega), if_neg (by omega), if_pos h2]

theorem dec3 {b1 b2 b3 : Nat} (h1 : 0xE0 ≤ b1) (h2 : b1 ≤ 0xEF)
    (hc2 : cont3 b1 b2 = true) (hc3 : contB b3 = true) (t : List Nat) :
    utf8Decode (b1 :: b2 :: b3 :: t) =
      (utf8Decode t).map (fun cs => cp3 b1 b2 b3 :: cs) := by
  rw [utf8Decode.eq_def]
  simp only []
  rw [if_neg (by omega), if_neg (by omega), if_neg (by omega), if_pos h2]
  simp only [hc2, hc3, if_true]

theorem lossy3 {b1 b2 b3 : Nat} (h1 : 0xE0 ≤ b1) (h2 : b1 ≤ 0xEF)
    (hc2 : cont3 b1 b2 = true) (hc3 : contB b3 = true) (t : List Nat) :
    utf8Lossy (b1 :: b2 :: b3 :: t) = cp3 b1 b2 b3 :: utf8Lossy t := by
  rw [utf8Lossy.eq_def]
  simp only []
  rw [if_neg (by omega), if_neg (by omega), if_neg (by omega), if_pos h2]
  simp only [hc2, hc3, if_true]

theorem dec3_bad2 {b1 b2 : Nat} (h1 : 0xE0 ≤ b1) (h2 : b1 ≤ 0xEF)
    (hc2 : cont3 b1 b2 = false) (t : List Nat) :
    utf8Decode (b1 :: b2 :: t) = none := by
  rw [utf8Decode.eq_def]
  simp only []
  rw [if_neg (by omega), if_neg (by omega), if_neg (by omega), if_pos h2]
  simp only [hc2, Bool.false_eq_true, if_false]

theorem lossy3_bad2 {b1 b2 : Nat} (h1 : 0xE0 ≤ b1) (h2 : b1 ≤ 0xEF)
    (hc2 : cont3 b1 b2 = false) (t : List Nat) :
    utf8Lossy (b1 :: b2 :: t) = 0xFFFD :: utf8Lossy (b2 :: t) := by
  rw [utf8Lossy.eq_def]
  simp only []
  rw [if_neg (by omega), if_neg (by omega), if_neg (by omega), if_pos h2]
  simp only [hc2, Bool.false_eq_true, if_false]

theorem dec3_bad3 {b1 b2 b3 : Nat} (h1 : 0xE0 ≤ b1) (h2 : b1 ≤ 0xEF)
    (hc2 : cont3 b1 b2 = true) (hc3 : contB b3 = false) (t : List Nat) :
    utf8Decode (b1 :: b2 :: b3 :: t) = none := by
  rw [utf8Decode.eq_def]
  simp only []
  rw [if_neg (by omega), if_neg (by omega), if_neg (by omega), if_pos h2]
  simp only [hc2, hc3, Bool.false_eq_true, if_false, if_true]

theorem lossy3_bad3 {b1 b2 b3 : Nat} (h1 : 0xE0 ≤ b1) (h2 : b1 ≤ 0xEF)
    (hc2 : cont3 b1 b2 = true) (hc3 : contB b3 = false) (t : List Nat) :
    utf8Lossy (b1 :: b2 :: b3 :: t) = 0xFFFD :: utf8Lossy (b3 :: t) := by
  rw [utf8Lossy.eq_def]
  simp only []
  rw [if_neg (by omega), if_neg (by omega), if_neg (by omega), if_pos h2]
  simp only [hc2, hc3, Bool.false_eq_true, if_false, if_true]

theorem dec3_short1 {b1 : Nat} (h1 : 0xE0 ≤ b1) (h2 : b1 ≤ 0xEF) :
    utf8Decode [b1] = none := by
  rw [utf8Decode.eq_def]
  simp only []
  rw [if_neg (by omega), if_neg (by omega), if_neg (by omega), if_pos h2]

theorem lossy3_short1 {b1 : Nat} (h1 : 0xE0 ≤ b1) (h2 : b1 ≤ 0xEF) :
    utf8Lossy [b1] = [0xFFFD] := by
  rw [utf8Lossy.eq_def]
  simp only []
  rw [if_neg (by omega), if_neg (by omega), if_neg (by omega), if_pos h2]

theorem dec3_short2 {b1 b2 : Nat} (h1 : 0xE0 ≤ b1) (h2 : b1 ≤ 0xEF)
    (hc2 : cont3 b1 b2 = true) :
    utf8Decode [b1, b2] = none := by
  rw [utf8Decode.eq_def]
  simp only []
  rw [if_neg (by omega), if_neg (by omega), if_neg (by omega), if_pos h2]
  simp only [hc2, if_true]

theorem lossy3_short2 {b1 b2 : Nat} (h1 : 0xE0 ≤ b1) (h2 : b1 ≤ 0xEF)
    (hc2 : cont3 b1 b2 = true) :
    utf8Lossy [b1, b2] = [0xFFFD] := by
  rw [utf8Lossy.eq_def]
  simp only []
  rw [if_neg (by omega), if_neg (by omega), if_neg (by omega), if_pos h2]
  simp only [hc2, if_true]

theorem dec4 {b1 b2 b3 b4 : Nat} (h1 : 0xF0 ≤ b1) (h2 : b1 ≤ 0xF4)
    (hc2 : cont4 b1 b2 = true) (hc3 : contB b3 = true) (hc4 : contB b4 = true)
    (t : List Nat) :
    utf8Decode (b1 :: b2 :: b3 :: b4 :: t) =
      (utf8Decode t).map (fun cs => cp4 b1 b2 b3 b4 :: cs) := by
  rw [utf8Decode.eq_def]
  simp only []
  rw [if_neg (by omega), if_neg (by omega), if_neg (by omega), if_neg (by omega),
    if_pos h2]
  simp only [hc2, hc3, hc4, if_true]

theorem lossy4 {b1 b2 b3 b4 : Nat} (h1 : 0xF0 ≤ b1) (h2 : b1 ≤ 0xF4)
    (hc2 : cont4 b1 b2 = true) (hc3 : contB b3 = true) (hc4 : contB b4 = true)
    (t : List Nat) :
    utf8Lossy (b1 :: b2 :: b3 :: b4 :: t) = cp4 b1 b2 b3 b4 :: utf8Lossy t := by
  rw [utf8Lossy.eq_def]
  simp only []
  rw [if_neg (by omega), if_neg (by omega), if_neg (by omega), if_neg (by omega),
    if_pos h2]
  simp only [hc2, hc3, hc4, if_true]

theorem dec4_bad2 {b1 b2 : Nat} (h1 : 0xF0 ≤ b1) (h2 : b1 ≤ 0xF4)
    (hc2 : cont4 b1 b2 = false) (t : List Nat) :
    utf8Decode (b1 :: b2 :: t) = none := by
  rw [utf8Decode.eq_def]
  simp only []
  rw [if_neg (by omega), if_neg (by omega), if_neg (by omega), if_neg (by omega),
    if_pos h2]
  simp only [hc2, Bool.false_eq_true, if_false]

theorem lossy4_bad2 {b1 b2 : Nat} (h1 : 0xF0 ≤ b1) (h2 : b1 ≤ 0xF4)
    (hc2 : cont4 b1 b2 = false) (t : List Nat) :
    utf8Lossy (b1 :: b2 :: t) = 0xFFFD :: utf8Lossy (b2 :: t) := by
  rw [utf8Lossy.eq_def]
  simp only []
  rw [if_neg (by omega), if_neg (by omega), if_neg (by omega), if_neg (by omega),
    if_pos h2]
  simp only [hc2, Bool.false_eq_true, if_false]

theorem dec4_bad3 {b1 b2 b3 : Nat} (h1 : 0xF0 ≤ b1) (h2 : b1 ≤ 0xF4)
    (hc2 : cont4 b1 b2 = true) (hc3 : contB b3 = false) (t : List Nat) :
    utf8Decode (b1 :: b2 :: b3 :: t) = none := by
  rw [utf8Decode.eq_def]
  simp only []
  rw [if_neg (by omega), if_neg (by omega), if_neg (by omega), if_neg (by omega),
    if_pos h2]
  simp only [hc2, hc3, Bool.false_eq_true, if_false, if_true]

theorem lossy4_bad3 {b1 b2 b3 : Nat} (h1 : 0xF0 ≤ b1) (h2 : b1 ≤ 0xF4)
    (hc2 : cont4 b1 b2 = true) (hc3 : contB b3 = false) (t : List Nat) :
    utf8Lossy (b1 :: b2 :: b3 :: t) = 0xFFFD :: utf8Lossy (b3 :: t) := by
  rw [utf8Lossy.eq_def]
  simp only []
  rw [if_neg (by omega), if_neg (by omega), if_neg (by omega), if_neg (by omega),
    if_pos h2]
  simp only [hc2, hc3, Bool.false_eq_true, if_false, if_true]

theorem dec4_bad4 {b1 b2 b3 b4 : Nat} (h1 : 0xF0 ≤ b1) (h2 : b1 ≤ 0xF4)
    (hc2 : cont4 b1 b2 = true) (hc3 : contB b3 = true) (hc4 : contB b4 = false)
    (t : List Nat) :
    utf8Decode (b1 :: b2 :: b3 :: b4 :: t) = none := by
  rw [utf8Decode.eq_def]
  simp only []
  rw [if_neg (by omega), if_neg (by omega), if_neg (by omega), if_neg (by omega),
    if_pos h2]
  simp only [hc2, hc3, hc4, Bool.false_eq_true, if_false, if_true]

theorem lossy4_bad4 {b1 b2 b3 b4 : Nat} (h1 : 0xF0 ≤ b1) (h2 : b1 ≤ 0xF4)
    (hc2 : cont4 b1 b2 = true) (hc3 : contB b3 = true) (hc4 : contB b4 = false)
    (t : List Nat) :
    utf8Lossy (b1 :: b2 :: b3 :: b4 :: t) = 0xFFFD :: utf8Lossy (b4 :: t) := by
  rw [utf8Lossy.eq_def]
  simp only []
  rw [if_neg (by omega), if_neg (by omega), if_neg (by omega), if_neg (by omega),
    if_pos h2]
  simp only [hc2, hc3, hc4, Bool.false_eq_true, if_false, if_true]

theorem dec4_short1 {b1 : Nat} (h1 : 0xF0 ≤ b1) (h2 : b1 ≤ 0xF4) :
    utf8Decode [b1] = none := by
  rw [utf8Decode.eq_def]
  simp only []
  rw [if_neg (by omega), if_neg (by omega), if_neg (by omega), if_neg (by omega),
    if_pos h2]

theorem lossy4_short1 {b1 : Nat} (h1 : 0xF0 ≤ b1) (h2 : b1 ≤ 0xF4) :
    utf8Lossy [b1] = [0xFFFD] := by
  rw [utf8Lossy.eq_def]
  simp only []
  rw [if_neg (by omega), if_neg (by omega), if_neg (by omega), if_neg (by omega),
    if_pos h2]

theorem dec4_short2 {b1 b2 : Nat} (h1 : 0xF0 ≤ b1) (h2 : b1 ≤ 0xF4)
    (hc2 : cont4 b1 b2 = true) :
    utf8Decode [b1, b2] = none := by
  rw [utf8Decode.eq_def]
  simp only []
  rw [if_neg (by omega), if_neg (by omega), if_neg (by omega), if_neg (by omega),
    if_pos h2]
  simp only [hc2, if_true]

theorem lossy4_short2 {b1 b2 : Nat} (h1 : 0xF0 ≤ b1) (h2 : b1 ≤ 0xF4)
    (hc2 : cont4 b1 b2 = true) :
    utf8Lossy [b1, b2] = [0xFFFD] := by
  rw [utf8Lossy.eq_def]
  simp only []
  rw [if_neg (by omega), if_neg (by omega), if_neg (by omega), if_neg (by omega),
    if_pos h2]
  simp only [hc2, if_true]

theorem dec4_short3 {b1 b2 b3 : Nat} (h1 : 0xF0 ≤ b1) (h2 : b1 ≤ 0xF4)
    (hc2 : cont4 b1 b2 = true) (hc3 : contB b3 = true) :
    utf8Decode [b1, b2, b3] = none := by
  rw [utf8Decode.eq_def]
  simp only []
  rw [if_neg (by omega), if_neg (by omega), if_neg (by omega), if_neg (by omega),
    if_pos h2]
  simp only [hc2, hc3, if_true]

theorem lossy4_short3 {b1 b2 b3 : Nat} (h1 : 0xF0 ≤ b1) (h2 : b1 ≤ 0xF4)
    (hc2 : cont4 b1 b2 = true) (hc3 : contB b3 = true) :
    utf8Lossy [b1, b2, b3] = [0xFFFD] := by
  rw [utf8Lossy.eq_def]
  simp only []
  rw [if_neg (by omega), if_neg (by omega), if_neg (by omega), if_neg (by omega),
    if_pos h2]
  simp only [hc2, hc3, if_true]

/-- `into_bytes` recovers exactly the bytes `from_bytes` was given. -/
theorem NvimString.into_bytes_from_bytes (v : List Nat) :
    (NvimString.from_bytes v).into_bytes = v := by
  simp [NvimString.from_bytes, NvimString.into_bytes, List.take_left]

/-- `iterNextK` yields the first `k` elements and leaves the rest. -/
theorem iterNextK_eq (k : Nat) (l : List Object) (h : k ≤ l.length) :
    iterNextK k ⟨l⟩ = (l.take k, ⟨l.drop k⟩) := by
  induction k generalizing l with
  | zero => simp [iterNextK]
  | succ k ih =>
    cases l with
    | nil => simp at h
    | cons x xs =>
      simp only [iterNextK, iterNext, ih xs (by simpa using h), List.take_succ_cons,
        List.drop_succ_cons]

/-! ### Byte-class characterizations -/

theorem contB_iff (b : Nat) : contB b = true ↔ 0x80 ≤ b ∧ b ≤ 0xBF := by
  simp [contB]

theorem cont3_spec {b1 b2 : Nat} (h : cont3 b1 b2 = true) :
    0x80 ≤ b2 ∧ b2 ≤ 0xBF ∧ (b1 = 0xE0 → 0xA0 ≤ b2) ∧ (b1 = 0xED → b2 ≤ 0x9F) := by
  unfold cont3 contB at h
  split_ifs at h with h1 h2 <;> simp only [beq_iff_eq] at h1 ⊢ <;>
    simp at h <;> first | omega | (simp only [beq_iff_eq] at h2; omega)

theorem cont4_spec {b1 b2 : Nat} (h : cont4 b1 b2 = true) :
    0x80 ≤ b2 ∧ b2 ≤ 0xBF ∧ (b1 = 0xF0 → 0x90 ≤ b2) ∧ (b1 = 0xF4 → b2 ≤ 0x8F) := by
  unfold cont4 contB at h
  split_ifs at h with h1 h2 <;> simp only [beq_iff_eq] at h1 ⊢ <;>
    simp at h <;> first | omega | (simp only [beq_iff_eq] at h2; omega)

/-! ### Encoder/decoder round trip -/

/-- Decoding the encoding of one scalar value consumes exactly its bytes
and recovers it. -/
theorem decode_encodeChar {c : Nat} (hc : Scalar c) (rest : List Nat) :
    utf8Decode (encodeChar c ++ rest) = (utf8Decode rest).map (fun cs => c :: cs) := by
  obtain ⟨hmax, hsur⟩ := hc
  by_cases hA : c < 0x80
  · have e : encodeChar c = [c] := by rw [encodeChar, if_pos hA]
    rw [e, List.cons_append, List.nil_append, dec_ascii hA]
  · by_cases hB : c < 0x800
    · have e : encodeChar c = [0xC0 + c / 0x40, 0x80 + c % 0x40] := by
        rw [encodeChar, if_neg hA, if_pos hB]
      have hc2 : contB (0x80 + c % 0x40) = true := by
        rw [contB_iff]; omega
      rw [e]
      simp only [List.cons_append, List.nil_append]
      rw [dec2 (by omega) (by omega) hc2]
      have : cp2 (0xC0 + c / 0x40) (0x80 + c % 0x40) = c := by
        unfold cp2; omega
      rw [this]
    · by_cases hC : c < 0x10000
      · have e : encodeChar c =
            [0xE0 + c / 0x1000, 0x80 + (c / 0x40) % 0x40, 0x80 + c % 0x40] := by
          rw [encodeChar, if_neg hA, if_neg hB, if_pos hC]
        have hc2 : cont3 (0xE0 + c / 0x1000) (0x80 + (c / 0x40) % 0x40) = true := by
          unfold cont3 contB
          split_ifs with h1 h2 <;>
            [skip; skip; skip] <;>
            simp only [beq_iff_eq] at * <;> simp <;> omega
        have hc3 : contB (0x80 + c % 0x40) = true := by
          rw [contB_iff]; omega
        rw [e]
        simp only [List.cons_append, List.nil_append]
        rw [dec3 (by omega) (by omega) hc2 hc3]
        have : cp3 (0xE0 + c / 0x1000) (0x80 + (c / 0x40) % 0x40)
            (0x80 + c % 0x40) = c := by
          unfold cp3; omega
        rw [this]
      · have e : encodeChar c =
            [0xF0 + c / 0x40000, 0x80 + (c / 0x1000) % 0x40,
              0x80 + (c / 0x40) % 0x40, 0x80 + c % 0x40] := by
          rw [encodeChar, if_neg hA, if_neg hB, if_neg hC]
        have hc2 : cont4 (0xF0 + c / 0x40000) (0x80 + (c / 0x1000) % 0x40) = true := by
          unfold cont4 contB
          split_ifs with h1 h2 <;>
            simp only [beq_iff_eq] at * <;> simp <;> omega
        have hc3 : contB (0x80 + (c / 0x40) % 0x40) = true := by
          rw [contB_iff]; omega
        have hc4 : contB (0x80 + c % 0x40) = true := by
          rw [contB_iff]; omega
        rw [e]
        simp only [List.cons_append, List.nil_append]
        rw [dec4 (by omega) (by omega) hc2 hc3 hc4]
        have : cp4 (0xF0 + c / 0x40000) (0x80 + (c / 0x1000) % 0x40)
            (0x80 + (c / 0x40) % 0x40) (0x80 + c % 0x40) = c := by
          unfold cp4; omega
        rw [this]

/-- Strict decoding inverts encoding on lists of scalar values. -/
theorem utf8Decode_encodeUtf8 {cs : List Nat} (h : ∀ c ∈ cs, Scalar c) :
    utf8Decode (encodeUtf8 cs) = some cs := by
  induction cs with
  | nil => rfl
  | cons c cs ih =>
    have : encodeUtf8 (c :: cs) = encodeChar c ++ encodeUtf8 cs := by
      simp [encodeUtf8]
    rw [this, decode_encodeChar (h c (List.mem_cons_self c cs)),
      ih (fun x hx => h x (List.mem_cons_of_mem c hx))]
    rfl

/-! ### Decoded codepoints are scalar values and re-encode to their bytes -/

theorem cp2_bounds {b1 b2 : Nat} (h1 : 0xC2 ≤ b1) (h2 : b1 ≤ 0xDF)
    (hc : contB b2 = true) : 0x80 ≤ cp2 b1 b2 ∧ cp2 b1 b2 < 0x800 := by
  have hb2 := (contB_iff b2).mp hc
  unfold cp2
  omega

theorem cp2_encode {b1 b2 : Nat} (h1 : 0xC2 ≤ b1) (h2 : b1 ≤ 0xDF)
    (hc : contB b2 = true) : encodeChar (cp2 b1 b2) = [b1, b2] := by
  have hb := cp2_bounds h1 h2 hc
  have hb2 := (contB_iff b2).mp hc
  rw [encodeChar, if_neg (by omega), if_pos (by omega)]
  have e1 : 0xC0 + cp2 b1 b2 / 0x40 = b1 := by unfold cp2 at *; omega
  have e2 : 0x80 + cp2 b1 b2 % 0x40 = b2 := by unfold cp2 at *; omega
  rw [e1, e2]

theorem cp3_bounds {b1 b2 b3 : Nat} (h1 : 0xE0 ≤ b1) (h2 : b1 ≤ 0xEF)
    (hc2 : cont3 b1 b2 = true) (hc3 : contB b3 = true) :
    0x800 ≤ cp3 b1 b2 b3 ∧ cp3 b1 b2 b3 < 0x10000 ∧
      ¬(0xD800 ≤ cp3 b1 b2 b3 ∧ cp3 b1 b2 b3 ≤ 0xDFFF) := by
  have hs := cont3_spec hc2
  have hb3 := (contB_iff b3).mp hc3
  by_cases hE0 : b1 = 0xE0
  · have := hs.2.2.1 hE0
    unfold cp3
    omega
  · by_cases hED : b1 = 0xED
    · have := hs.2.2.2 hED
      unfold cp3
      omega
    · have := hs.1
      have := hs.2.1
      unfold cp3
      omega

theorem cp3_encode {b1 b2 b3 : Nat} (h1 : 0xE0 ≤ b1) (h2 : b1 ≤ 0xEF)
    (hc2 : cont3 b1 b2 = true) (hc3 : contB b3 = true) :
    encodeChar (cp3 b1 b2 b3) = [b1, b2, b3] := by
  have hb := cp3_bounds h1 h2 hc2 hc3
  have hs := cont3_spec hc2
  have hb3 := (contB_iff b3).mp hc3
  rw [encodeChar, if_neg (by omega), if_neg (by omega), if_pos (by omega)]
  have e1 : 0xE0 + cp3 b1 b2 b3 / 0x1000 = b1 := by
    unfold cp3 at *; omega
  have e2 : 0x80 + (cp3 b1 b2 b3 / 0x40) % 0x40 = b2 := by
    unfold cp3 at *; omega
  have e3 : 0x80 + cp3 b1 b2 b3 % 0x40 = b3 := by
    unfold cp3 at *; omega
  rw [e1, e2, e3]

theorem cp4_bounds {b1 b2 b3 b4 : Nat} (h1 : 0xF0 ≤ b1) (h2 : b1 ≤ 0xF4)
    (hc2 : cont4 b1 b2 = true) (hc3 : contB b3 = true) (hc4 : contB b4 = true) :
    0x10000 ≤ cp4 b1 b2 b3 b4 ∧ cp4 b1 b2 b3 b4 < 0x110000 := by
  have hs := cont4_spec hc2
  have hb3 := (contB_iff b3).mp hc3
  have hb4 := (contB_iff b4).mp hc4
  by_cases hF0 : b1 = 0xF0
  · have := hs.2.2.1 hF0
    unfold cp4
    omega
  · by_cases hF4 : b1 = 0xF4
    · have := hs.2.2.2 hF4
      unfold cp4
      omega
    · have := hs.1
      have := hs.2.1
      unfold cp4
      omega

theorem cp4_encode {b1 b2 b3 b4 : Nat} (h1 : 0xF0 ≤ b1) (h2 : b1 ≤ 0xF4)
    (hc2 : cont4 b1 b2 = true) (hc3 : contB b3 = true) (hc4 : contB b4 = true) :
    encodeChar (cp4 b1 b2 b3 b4) = [b1, b2, b3, b4] := by
  have hb := cp4_bounds h1 h2 hc2 hc3 hc4
  have hs := cont4_spec hc2
  have hb3 := (contB_iff b3).mp hc3
  have hb4 := (contB_iff b4).mp hc4
  rw [encodeChar, if_neg (by omega), if_neg (by omega), if_neg (by omega)]
  have e1 : 0xF0 + cp4 b1 b2 b3 b4 / 0x40000 = b1 := by
    unfold cp4 at *; omega
  have e2 : 0x80 + (cp4 b1 b2 b3 b4 / 0x1000) % 0x40 = b2 := by
    unfold cp4 at *; omega
  have e3 : 0x80 + (cp4 b1 b2 b3 b4 / 0x40) % 0x40 = b3 := by
    unfold cp4 at *; omega
  have e4 : 0x80 + cp4 b1 b2 b3 b4 % 0x40 = b4 := by
    unfold cp4 at *; omega
  rw [e1, e2, e3, e4]

set_option maxRecDepth 4096 in
/-- Completeness: whatever the strict decoder accepts is the encoding of a
list of scalar values — i.e. valid UTF-8. -/
theorem utf8Decode_sound :
    ∀ n l cs, List.length l ≤ n → utf8Decode l = some cs →
      (∀ c ∈ cs, Scalar c) ∧ encodeUtf8 cs = l := by
  intro n
  induction n with
  | zero =>
    intro l cs hl h
    cases l with
    | nil =>
      cases h
      exact ⟨by simp, rfl⟩
    | cons b1 t1 => simp at hl
  | succ n ih =>
    intro l cs hl h
    cases l with
    | nil =>
      cases h
      exact ⟨by simp, rfl⟩
    | cons b1 t1 =>
      by_cases hA : b1 < 0x80
      · rw [dec_ascii hA] at h
        rcases Option.map_eq_some'.mp h with ⟨cs', hdec, rfl⟩
        obtain ⟨hsc, henc⟩ := ih t1 cs' (by simp at hl; omega) hdec
        refine ⟨?_, ?_⟩
        · intro x hx
          rcases List.mem_cons.mp hx with rfl | hx
          · exact ⟨by omega, by omega⟩
          · exact hsc x hx
        · have e : encodeChar b1 = [b1] := by rw [encodeChar, if_pos hA]
          show (List.map encodeChar (b1 :: cs')).flatten = b1 :: t1
          simp only [List.map_cons, List.flatten_cons, e]
          rw [show (List.map encodeChar cs').flatten = encodeUtf8 cs' from rfl, henc]
          rfl
      · by_cases hB : b1 < 0xC2
        · rw [dec_badlead (by omega) hB] at h
          cases h
        · by_cases hC : b1 ≤ 0xDF
          · cases t1 with
            | nil =>
              rw [dec2_short (by omega) hC] at h
              cases h
            | cons b2 t2 =>
              rcases hcb : contB b2 with hf | ht
              · rw [dec2_bad (by omega) hC hcb] at h
                cases h
              · rw [dec2 (by omega) hC hcb] at h
                rcases Option.map_eq_some'.mp h with ⟨cs', hdec, rfl⟩
                obtain ⟨hsc, henc⟩ := ih t2 cs' (by simp at hl; omega) hdec
                have hb := cp2_bounds (by omega) hC hcb
                refine ⟨?_, ?_⟩
                · intro x hx
                  rcases List.mem_cons.mp hx with rfl | hx
                  · exact ⟨by omega, by omega⟩
                  · exact hsc x hx
                · show (List.map encodeChar (cp2 b1 b2 :: cs')).flatten = b1 :: b2 :: t2
                  simp only [List.map_cons, List.flatten_cons,
                    cp2_encode (by omega) hC hcb]
                  rw [show (List.map encodeChar cs').flatten = encodeUtf8 cs' from rfl,
                    henc]
                  rfl
          · by_cases hD : b1 ≤ 0xEF
            · cases t1 with
              | nil =>
                rw [dec3_short1 (by omega) hD] at h
                cases h
              | cons b2 t2 =>
                rcases hc2 : cont3 b1 b2 with hf | ht
                · rw [dec3_bad2 (by omega) hD hc2] at h
                  cases h
                · cases t2 with
                  | nil =>
                    rw [dec3_short2 (by omega) hD hc2] at h
                    cases h
                  | cons b3 t3 =>
                    rcases hc3 : contB b3 with hf | ht
                    · rw [dec3_bad3 (by omega) hD hc2 hc3] at h
                      cases h
                    · rw [dec3 (by omega) hD hc2 hc3] at h
                      rcases Option.map_eq_some'.mp h with ⟨cs', hdec, rfl⟩
                      obtain ⟨hsc, henc⟩ := ih t3 cs' (by simp at hl; omega) hdec
                      have hb := cp3_bounds (by omega) hD hc2 hc3
                      refine ⟨?_, ?_⟩
                      · intro x hx
                        rcases List.mem_cons.mp hx with rfl | hx
                        · exact ⟨by omega, by omega⟩
                        · exact hsc x hx
                      · show (List.map encodeChar (cp3 b1 b2 b3 :: cs')).flatten =
                          b1 :: b2 :: b3 :: t3
                        simp only [List.map_cons, List.flatten_cons,
                          cp3_encode (by omega) hD hc2 hc3]
                        rw [show (List.map encodeChar cs').flatten = encodeUtf8 cs'
                          from rfl, henc]
                        rfl
            · by_cases hE : b1 ≤ 0xF4
              · cases t1 with
                | nil =>
                  rw [dec4_short1 (by omega) hE] at h
                  cases h
                | cons b2 t2 =>
                  rcases hc2 : cont4 b1 b2 with hf | ht
                  · rw [dec4_bad2 (by omega) hE hc2] at h
                    cases h
                  · cases t2 with
                    | nil =>
                      rw [dec4_short2 (by omega) hE hc2] at h
                      cases h
                    | cons b3 t3 =>
                      rcases hc3 : contB b3 with hf | ht
                      · rw [dec4_bad3 (by omega) hE hc2 hc3] at h
                        cases h
                      · cases t3 with
                        | nil =>
                          rw [dec4_short3 (by omega) hE hc2 hc3] at h
                          cases h
                        | cons b4 t4 =>
                          rcases hc4 : contB b4 with hf | ht
                          · rw [dec4_bad4 (by omega) hE hc2 hc3 hc4] at h
                            cases h
                          · rw [dec4 (by omega) hE hc2 hc3 hc4] at h
                            rcases Option.map_eq_some'.mp h with ⟨cs', hdec, rfl⟩
                            obtain ⟨hsc, henc⟩ :=
                              ih t4 cs' (by simp at hl; omega) hdec
                            have hb := cp4_bounds (by omega) hE hc2 hc3 hc4
                            refine ⟨?_, ?_⟩
                            · intro x hx
                              rcases List.mem_cons.mp hx with rfl | hx
                              · exact ⟨by omega, by omega⟩
                              · exact hsc x hx
                            · show (List.map encodeChar
                                  (cp4 b1 b2 b3 b4 :: cs')).flatten =
                                b1 :: b2 :: b3 :: b4 :: t4
                              simp only [List.map_cons, List.flatten_cons,
                                cp4_encode (by omega) hE hc2 hc3 hc4]
                              rw [show (List.map encodeChar cs').flatten =
                                encodeUtf8 cs' from rfl, henc]
                              rfl
              · rw [dec_hugelead (by omega) t1] at h
                cases h

/-! ### Lossy decoding versus strict decoding -/

/-- On valid UTF-8 the lossy decoder returns exactly what the strict
decoder returns (no replacement happens). -/
theorem utf8Lossy_agrees :
    ∀ n l cs, List.length l ≤ n → utf8Decode l = some cs → utf8Lossy l = cs := by
  intro n
  induction n with
  | zero =>
    intro l cs hl h
    cases l with
    | nil => cases h; exact lossy_nil
    | cons b1 t1 => simp at hl
  | succ n ih =>
    intro l cs hl h
    cases l with
    | nil => cases h; exact lossy_nil
    | cons b1 t1 =>
      by_cases hA : b1 < 0x80
      · rw [dec_ascii hA] at h
        rcases Option.map_eq_some'.mp h with ⟨cs', hdec, rfl⟩
        rw [lossy_ascii hA, ih t1 cs' (by simp at hl; omega) hdec]
      · by_cases hB : b1 < 0xC2
        · rw [dec_badlead (by omega) hB] at h
          cases h
        · by_cases hC : b1 ≤ 0xDF
          · cases t1 with
            | nil =>
              rw [dec2_short (by omega) hC] at h
              cases h
            | cons b2 t2 =>
              rcases hcb : contB b2 with hf | ht
              · rw [dec2_bad (by omega) hC hcb] at h
                cases h
              · rw [dec2 (by omega) hC hcb] at h
                rcases Option.map_eq_some'.mp h with ⟨cs', hdec, rfl⟩
                rw [lossy2 (by omega) hC hcb, ih t2 cs' (by simp at hl; omega) hdec]
          · by_cases hD : b1 ≤ 0xEF
            · cases t1 with
              | nil =>
                rw [dec3_short1 (by omega) hD] at h
                cases h
              | cons b2 t2 =>
                rcases hc2 : cont3 b1 b2 with hf | ht
                · rw [dec3_bad2 (by omega) hD hc2] at h
                  cases h
                · cases t2 with
                  | nil =>
                    rw [dec3_short2 (by omega) hD hc2] at h
                    cases h
                  | cons b3 t3 =>
                    rcases hc3 : contB b3 with hf | ht
                    · rw [dec3_bad3 (by omega) hD hc2 hc3] at h
                      cases h
                    · rw [dec3 (by omega) hD hc2 hc3] at h
                      rcases Option.map_eq_some'.mp h with ⟨cs', hdec, rfl⟩
                      rw [lossy3 (by omega) hD hc2 hc3,
                        ih t3 cs' (by simp at hl; omega) hdec]
            · by_cases hE : b1 ≤ 0xF4
              · cases t1 with
                | nil =>
                  rw [dec4_short1 (by omega) hE] at h
                  cases h
                | cons b2 t2 =>
                  rcases hc2 : cont4 b1 b2 with hf | ht
                  · rw [dec4_bad2 (by omega) hE hc2] at h
                    cases h
                  · cases t2 with
                    | nil =>
                      rw [dec4_short2 (by omega) hE hc2] at h
                      cases h
                    | cons b3 t3 =>
                      rcases hc3 : contB b3 with hf | ht
                      · rw [dec4_bad3 (by omega) hE hc2 hc3] at h
                        cases h
                      · cases t3 with
                        | nil =>
                          rw [dec4_short3 (by omega) hE hc2 hc3] at h
                          cases h
                        | cons b4 t4 =>
                          rcases hc4 : contB b4 with hf | ht
                          · rw [dec4_bad4 (by omega) hE hc2 hc3 hc4] at h
                            cases h
                          · rw [dec4 (by omega) hE hc2 hc3 hc4] at h
                            rcases Option.map_eq_some'.mp h with ⟨cs', hdec, rfl⟩
                            rw [lossy4 (by omega) hE hc2 hc3 hc4,
                              ih t4 cs' (by simp at hl; omega) hdec]
              · rw [dec_hugelead (by omega) t1] at h
                cases h

/-- On invalid UTF-8 the lossy decoder emits the replacement character
U+FFFD (at least once, one per invalid sequence). -/
theorem utf8Lossy_replaces :
    ∀ n l, List.length l ≤ n → utf8Decode l = none → 0xFFFD ∈ utf8Lossy l := by
  intro n
  induction n with
  | zero =>
    intro l hl h
    cases l with
    | nil => cases h
    | cons b1 t1 => simp at hl
  | succ n ih =>
    intro l hl h
    cases l with
    | nil => cases h
    | cons b1 t1 =>
      by_cases hA : b1 < 0x80
      · rw [dec_ascii hA] at h
        rw [lossy_ascii hA]
        exact List.mem_cons_of_mem _
          (ih t1 (by simp at hl; omega) (Option.map_eq_none'.mp h))
      · by_cases hB : b1 < 0xC2
        · rw [lossy_badlead (by omega) hB]
          exact List.mem_cons_self _ _
        · by_cases hC : b1 ≤ 0xDF
          · cases t1 with
            | nil =>
              rw [lossy2_short (by omega) hC]
              exact List.mem_cons_self _ _
            | cons b2 t2 =>
              rcases hcb : contB b2 with hf | ht
              · rw [lossy2_bad (by omega) hC hcb]
                exact List.mem_cons_self _ _
              · rw [dec2 (by omega) hC hcb] at h
                rw [lossy2 (by omega) hC hcb]
                exact List.mem_cons_of_mem _
                  (ih t2 (by simp at hl; omega) (Option.map_eq_none'.mp h))
          · by_cases hD : b1 ≤ 0xEF
            · cases t1 with
              | nil =>
                rw [lossy3_short1 (by omega) hD]
                exact List.mem_cons_self _ _
              | cons b2 t2 =>
                rcases hc2 : cont3 b1 b2 with hf | ht
                · rw [lossy3_bad2 (by omega) hD hc2]
                  exact List.mem_cons_self _ _
                · cases t2 with
                  | nil =>
                    rw [lossy3_short2 (by omega) hD hc2]
                    exact List.mem_cons_self _ _
                  | cons b3 t3 =>
                    rcases hc3 : contB b3 with hf | ht
                    · rw [lossy3_bad3 (by omega) hD hc2 hc3]
                      exact List.mem_cons_self _ _
                    · rw [dec3 (by omega) hD hc2 hc3] at h
                      rw [lossy3 (by omega) hD hc2 hc3]
                      exact List.mem_cons_of_mem _
                        (ih t3 (by simp at hl; omega) (Option.map_eq_none'.mp h))
            · by_cases hE : b1 ≤ 0xF4
              · cases t1 with
                | nil =>
                  rw [lossy4_short1 (by omega) hE]
                  exact List.mem_cons_self _ _
                | cons b2 t2 =>
                  rcases hc2 : cont4 b1 b2 with hf | ht
                  · rw [lossy4_bad2 (by omega) hE hc2]
                    exact List.mem_cons_self _ _
                  · cases t2 with
                    | nil =>
                      rw [lossy4_short2 (by omega) hE hc2]
                      exact List.mem_cons_self _ _
                    | cons b3 t3 =>
                      rcases hc3 : contB b3 with hf | ht
                      · rw [lossy4_bad3 (by omega) hE hc2 hc3]
                        exact List.mem_cons_self _ _
                      · cases t3 with
                        | nil =>
                          rw [lossy4_short3 (by omega) hE hc2 hc3]
                          exact List.mem_cons_self _ _
                        | cons b4 t4 =>
                          rcases hc4 : contB b4 with hf | ht
                          · rw [lossy4_bad4 (by omega) hE hc2 hc3 hc4]
                            exact List.mem_cons_self _ _
                          · rw [dec4 (by omega) hE hc2 hc3 hc4] at h
                            rw [lossy4 (by omega) hE hc2 hc3 hc4]
                            exact List.mem_cons_of_mem _
                              (ih t4 (by simp at hl; omega)
                                (Option.map_eq_none'.mp h))
              · rw [lossy_hugelead (by omega) t1]
                exact List.mem_cons_self _ _

/-- A byte list is valid UTF-8 exactly when the strict decoder accepts it. -/
theorem utf8Decode_isSome_iff_valid (v : List Nat) :
    (utf8Decode v).isSome = true ↔ Utf8Valid v := by
  constructor
  · intro h
    rcases Option.isSome_iff_exists.mp h with ⟨cs, hcs⟩
    obtain ⟨hsc, henc⟩ := utf8Decode_sound v.length v cs le_rfl hcs
    exact ⟨cs, hsc, henc⟩
  · rintro ⟨cs, hsc, rfl⟩
    rw [utf8Decode_encodeUtf8 hsc]
    rfl

/-! ## Claim theorems -/

/-- C6: Byte-Buffer round trip — for every byte vector `v`, including ones
with embedded zeros and invalid UTF-8, `from_bytes(v).into_bytes() == v`. -/
theorem from_bytes_into_bytes_roundtrip (v : List Nat) :
    (NvimString.from_bytes v).into_bytes = v :=
  NvimString.into_bytes_from_bytes v

/-- C9: owned-buffer invariant — a buffer built by `from_bytes` has a
backing allocation of `length + 1` bytes, holding the content followed by
a single terminator byte `0`; the recorded `size` excludes the terminator;
`Drop` releases exactly that whole allocation; and `Clone` re-enters
`from_bytes`, so clones satisfy the same invariant. -/
theorem owned_buffer_invariant (v : List Nat) :
    (NvimString.from_bytes v).data = some (v ++ [0]) ∧
    (v ++ [0]).length = (NvimString.from_bytes v).size + 1 ∧
    (v ++ [0]).take (NvimString.from_bytes v).size = v ∧
    (v ++ [0]).drop (NvimString.from_bytes v).size = [0] ∧
    NvimString.dropFrees (NvimString.from_bytes v) = some (v ++ [0]) ∧
    (∀ s : NvimString, s.clone = NvimString.from_bytes s.as_bytes) ∧
    Object.fromStdString v = Object.fromNvimString (NvimString.from_bytes v) := by
  refine ⟨rfl, by simp [NvimString.from_bytes], ?_, ?_, ?_, fun s => rfl, rfl⟩
  · simp [NvimString.from_bytes, List.take_left]
  · simp [NvimString.from_bytes, List.drop_left]
  · simp [NvimString.dropFrees, NvimString.from_bytes]

/-- C10: a Byte-Buffer with a null data pointer, as produced by
`String::default()`, reads as the empty buffer everywhere: `len` 0, empty
`as_bytes`/`into_bytes`, and equal (byte-wise) to every buffer of length 0. -/
theorem null_buffer_acts_empty :
    NvimString.default.data = none ∧
    NvimString.default.len = 0 ∧
    NvimString.default.as_bytes = [] ∧
    NvimString.default.into_bytes = [] ∧
    (∀ t : NvimString, t.len = 0 →
      NvimString.default.beq t = true ∧ t.beq NvimString.default = true) := by
  refine ⟨rfl, rfl, rfl, rfl, fun t ht => ?_⟩
  have hb : t.as_bytes = [] := by
    cases h : t.data with
    | none => simp [NvimString.as_bytes, h]
    | some a =>
      simp [NvimString.len] at ht
      simp [NvimString.as_bytes, h, ht]
  have hd : NvimString.default.as_bytes = [] := rfl
  exact ⟨by simp [NvimString.beq, hb, hd], by simp [NvimString.beq, hb, hd]⟩

/-- Witness for C10 at a concrete zero-length buffer. -/
theorem null_buffer_acts_empty_witness :
    NvimString.default.beq (NvimString.from_bytes []) = true :=
  (null_buffer_acts_empty.2.2.2.2 (NvimString.from_bytes []) rfl).1

/-- C2 (failing input): the source's `PartialEq for Object` compares the
one-byte `boolean` union field in the `kObjectTypeInteger` arm
(object.rs:223), so the integer-tagged values 0 and 256 — whose full i64
payloads differ but whose low bytes agree — compare equal, contradicting
payload equality for the integer tag. -/
theorem eq_integer_compares_low_byte_only :
    objectEqCode (Object.integer 0) (Object.integer 256) = true ∧
    (0 : Int) ≠ 256 := by
  constructor
  · simp [objectEqCode, Object.lowByte]
  · decide

/-- C3: tag-safety — for every tag, the accessor of that tag applied to a
value constructed with it succeeds and returns the payload, and every
accessor applied to a value of a different tag fails with a `Primitive`
error whose `expected` field is the accessor's tag and whose `actual`
field is the value's tag; the accessors are total (never panic). -/
theorem tag_safety (o : Object) :
    (∀ b, Object.tryFromBoolean (Object.boolean b) = .ok b) ∧
    (o.tag ≠ .kObjectTypeBoolean →
      Object.tryFromBoolean o = .error (.Primitive .kObjectTypeBoolean o.tag)) ∧
    (∀ i, Object.tryFromInteger (Object.integer i) = .ok i) ∧
    (o.tag ≠ .kObjectTypeInteger →
      Object.tryFromInteger o = .error (.Primitive .kObjectTypeInteger o.tag)) ∧
    (∀ f, Object.tryFromFloat (Object.float f) = .ok f) ∧
    (o.tag ≠ .kObjectTypeFloat →
      Object.tryFromFloat o = .error (.Primitive .kObjectTypeFloat o.tag)) ∧
    (∀ s, Object.tryFromNvimString (Object.string s) = .ok s) ∧
    (o.tag ≠ .kObjectTypeString →
      Object.tryFromNvimString o = .error (.Primitive .kObjectTypeString o.tag)) ∧
    (∀ a, Object.tryFromArray (Object.array a) = .ok a) ∧
    (o.tag ≠ .kObjectTypeArray →
      Object.tryFromArray o = .error (.Primitive .kObjectTypeArray o.tag)) ∧
    (∀ d, Object.tryFromDictionary (Object.dictionary d) = .ok d) ∧
    (o.tag ≠ .kObjectTypeDictionary →
      Object.tryFromDictionary o = .error (.Primitive .kObjectTypeDictionary o.tag)) ∧
    Object.tryFromUnit Object.nil = .ok () ∧
    (o.tag ≠ .kObjectTypeNil →
      Object.tryFromUnit o = .error (.Primitive .kObjectTypeNil o.tag)) := by
  refine ⟨fun b => rfl, fun h => ?_, fun i => rfl, fun h => ?_, fun f => rfl,
    fun h => ?_, fun s => rfl, fun h => ?_, fun a => rfl, fun h => ?_,
    fun d => rfl, fun h => ?_, rfl, fun h => ?_⟩ <;>
  · cases o <;> first | rfl | simp [Object.tag] at h

/-- Witness for C3: the integer accessor succeeds on an integer-tagged
value, and the boolean accessor fails on it with the expected/actual pair. -/
theorem tag_safety_witness :
    Object.tryFromInteger (Object.integer 5) = .ok 5 ∧
    Object.tryFromBoolean (Object.integer 5) =
      .error (.Primitive .kObjectTypeBoolean .kObjectTypeInteger) :=
  ⟨(tag_safety (Object.integer 5)).2.2.1 5,
    (tag_safety (Object.integer 5)).2.1 (by decide)⟩

/-- C4: building a Sequence from an iterator of convertible inputs keeps
exactly the elements whose converted Object is not nil, in their original
order; `[Some(1), None, Some(2)]` becomes a two-element sequence `[1, 2]`,
and an all-nil input collapses to the empty sequence. -/
theorem seq_from_iter_drops_nil :
    arrayFromIter
        ([Option.some 1, Option.none, Option.some 2].map
          (Object.fromOption Object.fromInteger)) =
      [Object.integer 1, Object.integer 2] ∧
    (∀ l : List Object, (arrayFromIter l).Sublist l) ∧
    (∀ (l : List Object) (o : Object),
      o ∈ arrayFromIter l ↔ o ∈ l ∧ o.is_nil = false) ∧
    (∀ l : List Object, (∀ o ∈ l, o.is_nil = true) → arrayFromIter l = []) := by
  refine ⟨rfl, fun l => List.filter_sublist l, fun l o => ?_, fun l h => ?_⟩
  · simp [arrayFromIter, List.mem_filter, Object.is_some]
  · rw [arrayFromIter, List.filter_eq_nil_iff]
    intro o ho
    simp [Object.is_some, h o ho]

/-- Witness for C4 on an all-nil list. -/
theorem seq_from_iter_drops_nil_witness :
    arrayFromIter [Object.nil, Object.nil] = [] :=
  seq_from_iter_drops_nil.2.2.2 [Object.nil, Object.nil]
    (by intro o ho; simp at ho; subst ho; decide)

/-- C5: partial iteration safety — turning a sequence of `n` elements into
its ownership-transferring iterator and calling `next` `k ≤ n` times
yields exactly the first `k` elements in order; dropping the iterator then
releases exactly the remaining `n - k` elements, and every element of the
sequence is either yielded or released, exactly once. -/
theorem partial_iteration_safety (a : List Object) (k : Nat)
    (h : k ≤ a.length) :
    (iterNextK k (arrayIntoIter a)).1 = a.take k ∧
    iterDropFrees (iterNextK k (arrayIntoIter a)).2 = a.drop k ∧
    (iterNextK k (arrayIntoIter a)).1 ++
        iterDropFrees (iterNextK k (arrayIntoIter a)).2 = a := by
  rw [arrayIntoIter, iterNextK_eq k a h]
  exact ⟨rfl, rfl, List.take_append_drop k a⟩

/-- Witness for C5: five owned buffers, two consumed, iterator dropped —
the two yielded and the three released account for all five, once each. -/
theorem partial_iteration_safety_witness :
    (iterNextK 2 (arrayIntoIter (List.map
        (fun b => Object.string (NvimString.from_bytes [b])) [1, 2, 3, 4, 5]))).1 ++
      iterDropFrees (iterNextK 2 (arrayIntoIter (List.map
        (fun b => Object.string (NvimString.from_bytes [b])) [1, 2, 3, 4, 5]))).2 =
      List.map (fun b => Object.string (NvimString.from_bytes [b])) [1, 2, 3, 4, 5] :=
  (partial_iteration_safety _ 2 (by simp)).2.2

/-- C7: a mutable closure handle invoked while a prior invocation is still
executing (the `RefCell` is borrowed) fails with
`LuaFunMutRecursiveCallback` without touching the captured state; a
once closure handle invoked after its first invocation consumed the
closure fails with `LuaFunOnceMoreThanOnce` instead of re-running it. -/
theorem closure_reentrancy_guard {σ A R : Type} :
    (∀ (c : FnMutCell σ A R) (a : A), c.borrowed = true →
      invokeFnMut c a = (.error .LuaFunMutRecursiveCallback, c)) ∧
    (∀ (c : FnOnceCell A R) (f : A → Except CrateError R) (a b : A),
      c.borrowed = false → c.fn = Option.some f →
      (invokeFnOnce c a).1 = f a ∧
      (invokeFnOnce c a).2.fn = Option.none ∧
      invokeFnOnce (invokeFnOnce c a).2 b =
        (.error .LuaFunOnceMoreThanOnce, (invokeFnOnce c a).2)) := by
  constructor
  · intro c a h
    simp [invokeFnMut, h]
  · intro c f a b hb hf
    cases c
    cases hf
    cases hb
    exact ⟨rfl, rfl, rfl⟩

/-- Witness for C7 at concrete closures over `Nat`. -/
theorem closure_reentrancy_guard_witness :
    invokeFnMut (⟨true, 0, fun s a => (s + a, .ok a)⟩ : FnMutCell Nat Nat Nat) 7 =
      (.error .LuaFunMutRecursiveCallback,
        (⟨true, 0, fun s a => (s + a, .ok a)⟩ : FnMutCell Nat Nat Nat)) ∧
    invokeFnOnce
        ((invokeFnOnce (⟨false, Option.some fun a => .ok (a + 1)⟩ :
          FnOnceCell Nat Nat) 3).2) 4 =
      (.error .LuaFunOnceMoreThanOnce,
        (invokeFnOnce (⟨false, Option.some fun a => .ok (a + 1)⟩ :
          FnOnceCell Nat Nat) 3).2) :=
  ⟨(@closure_reentrancy_guard Nat Nat Nat).1 _ 7 rfl,
    ((@closure_reentrancy_guard Nat Nat Nat).2 _ (fun a => .ok (a + 1)) 3 4
      rfl rfl).2.2⟩

/-- C1: round-trip law of the Conversion Bridge — for every host type with
both a `From` (encode) and a `TryFrom` (decode) implementation, decoding
the Object produced by encoding a value returns exactly that value: unit,
booleans, 64-bit integers, floats, Neovim strings, arrays, dictionaries,
Rust `String`s (any valid-UTF-8 byte content), and the bounded integer
types `i8`/`u8`/`i16`/`u16`/`i32`/`u32` on their full ranges. -/
theorem bridge_roundtrip :
    (∀ u : Unit, Object.tryFromUnit (Object.fromUnit u) = .ok u) ∧
    (∀ b : Bool, Object.tryFromBoolean (Object.fromBoolean b) = .ok b) ∧
    (∀ i : Int, Object.tryFromInteger (Object.fromInteger i) = .ok i) ∧
    (∀ f : Int, Object.tryFromFloat (Object.fromFloat f) = .ok f) ∧
    (∀ s : NvimString,
      Object.tryFromNvimString (Object.fromNvimString s) = .ok s) ∧
    (∀ a : List Object, Object.tryFromArray (Object.fromArray a) = .ok a) ∧
    (∀ d : List (NvimString × Object),
      Object.tryFromDictionary (Object.fromDictionary d) = .ok d) ∧
    (∀ v : List Nat, Utf8Valid v →
      Object.tryFromStdString (Object.fromStdString v) = .ok v) ∧
    (∀ i : Int, -128 ≤ i → i ≤ 127 →
      Object.tryFromI8 (Object.fromNarrowInt i) = .ok i) ∧
    (∀ i : Int, 0 ≤ i → i ≤ 255 →
      Object.tryFromU8 (Object.fromNarrowInt i) = .ok i) ∧
    (∀ i : Int, -32768 ≤ i → i ≤ 32767 →
      Object.tryFromI16 (Object.fromNarrowInt i) = .ok i) ∧
    (∀ i : Int, 0 ≤ i → i ≤ 65535 →
      Object.tryFromU16 (Object.fromNarrowInt i) = .ok i) ∧
    (∀ i : Int, -2147483648 ≤ i → i ≤ 2147483647 →
      Object.tryFromI32 (Object.fromNarrowInt i) = .ok i) ∧
    (∀ i : Int, 0 ≤ i → i ≤ 4294967295 →
      Object.tryFromU32 (Object.fromNarrowInt i) = .ok i) := by
  refine ⟨fun u => rfl, fun b => rfl, fun i => rfl, fun f => rfl, fun s => rfl,
    fun a => rfl, fun d => rfl, ?_, ?_, ?_, ?_, ?_, ?_, ?_⟩
  · intro v hv
    simp only [Object.tryFromStdString, Object.fromStdString,
      Object.tryFromNvimString, NvimString.into_bytes_from_bytes]
    split
    · rfl
    · rename_i heq
      have := (utf8Decode_isSome_iff_valid v).mpr hv
      rw [heq] at this
      cases this
  all_goals
    intro i h1 h2
    simp only [Object.tryFromI8, Object.tryFromU8, Object.tryFromI16,
      Object.tryFromU16, Object.tryFromI32, Object.tryFromU32,
      Object.tryFromIntRange, Object.fromNarrowInt, Object.tryFromInteger]
    rw [if_pos ⟨h1, h2⟩]

/-- Witness for C1: a concrete Rust string, bounded integer and boolean
round trip. -/
theorem bridge_roundtrip_witness :
    Object.tryFromStdString (Object.fromStdString [0x66, 0x6F, 0x6F]) =
      .ok [0x66, 0x6F, 0x6F] ∧
    Object.tryFromI8 (Object.fromNarrowInt 3) = .ok 3 ∧
    Object.tryFromBoolean (Object.fromBoolean true) = .ok true :=
  ⟨bridge_roundtrip.2.2.2.2.2.2.2.1 [0x66, 0x6F, 0x6F]
      ⟨[0x66, 0x6F, 0x6F], by decide, by decide⟩,
    bridge_roundtrip.2.2.2.2.2.2.2.2.1 3 (by decide) (by decide),
    bridge_roundtrip.2.1 true⟩

/-- C8: the strict text conversions (`as_str`, `into_string`) succeed and
return the buffer's decoded text exactly when the content is valid UTF-8
and fail otherwise; the separately-named `to_string_lossy` is total,
agrees with the strict decoding on valid content, and substitutes U+FFFD
for invalid UTF-8; the strict and lossy paths are distinct operations
(witnessed by the byte `0xFF`). -/
theorem text_conversion_paths (s : NvimString) :
    ((s.as_str).isSome = true ↔ Utf8Valid s.as_bytes) ∧
    ((s.into_string).isSome = true ↔ Utf8Valid s.into_bytes) ∧
    (∀ cs, s.as_str = some cs → s.to_string_lossy = cs) ∧
    (s.as_str = none → 0xFFFD ∈ s.to_string_lossy) ∧
    NvimString.as_str (NvimString.from_bytes [0xFF]) = none ∧
    NvimString.to_string_lossy (NvimString.from_bytes [0xFF]) = [0xFFFD] := by
  refine ⟨?_, ?_, ?_, ?_, ?_, ?_⟩
  · exact utf8Decode_isSome_iff_valid s.as_bytes
  · exact utf8Decode_isSome_iff_valid s.into_bytes
  · intro cs h
    exact utf8Lossy_agrees s.as_bytes.length s.as_bytes cs le_rfl h
  · intro h
    exact utf8Lossy_replaces s.as_bytes.length s.as_bytes le_rfl h
  · rfl
  · show utf8Lossy (NvimString.from_bytes [0xFF]).as_bytes = [0xFFFD]
    rw [show (NvimString.from_bytes [0xFF]).as_bytes = [0xFF] from rfl,
      lossy_hugelead (by omega) [], lossy_nil]

/-- Witness for C8: the lossy conversion of the invalid byte `0xFF`
contains the replacement character. -/
theorem text_conversion_paths_witness :
    0xFFFD ∈ (NvimString.from_bytes [0xFF]).to_string_lossy :=
  (text_conversion_paths (NvimString.from_bytes [0xFF])).2.2.2.1 rfl

end NvimOxi
